import Mathlib

/-!
Verification of the two notebook algorithms of this repository:
the explicit-Euler time-stepping loops of
`Solving second order ODEs.ipynb` and the bisection shooting loop of
`BVP.ipynb`.  Numpy arrays of rank 1 are embedded as `List ℚ`
(exact rational arithmetic in place of floating point), rank-2 arrays as
`List (List ℚ)`, and the loops as structural recursions.
-/

/-- Elementwise sum of two numeric vectors: numpy `+` on two same-shape
rank-1 arrays.  (On equal-length lists this is exactly numpy's addition;
numpy's length-1 broadcasting is modelled separately by `npAdd` below.) -/
def vecAdd (u v : List ℚ) : List ℚ := List.zipWith (· + ·) u v

/-- numpy scalar multiplication `arr * c` on a rank-1 array. -/
def vecScale (v : List ℚ) (c : ℚ) : List ℚ := v.map (· * c)

/-- One explicit-Euler update `y + deriv(y, t) * dt`
(the body of `y[i+1] = y[i] + SHO_deriv(y[i],time[i]) * dt`). -/
def eulerStep (deriv : List ℚ → ℚ → List ℚ) (dt : ℚ) (y : List ℚ) (t : ℚ) :
    List ℚ :=
  vecAdd y (vecScale (deriv y t) dt)

/-- State after `i` Euler steps of the vector loop
`for i in range(0,n): y[i+1] = y[i] + deriv(y[i], t0 + i*dt) * dt`,
the derivative evaluated at the left endpoint `t0 + i*dt` of each step. -/
def eulerState (deriv : List ℚ → ℚ → List ℚ) (y0 : List ℚ) (t0 dt : ℚ) :
    ℕ → List ℚ
  | 0 => y0
  | i + 1 => eulerStep deriv dt (eulerState deriv y0 t0 dt i) (t0 + (i : ℚ) * dt)

/-- The whole trajectory `y[0], ..., y[n]` produced by the Euler loop with
`n` steps: a list of length `n + 1`. -/
def eulerTraj (deriv : List ℚ → ℚ → List ℚ) (y0 : List ℚ) (t0 dt : ℚ)
    (n : ℕ) : List (List ℚ) :=
  (List.range (n + 1)).map (eulerState deriv y0 t0 dt)

/-- `SHO_deriv` from the source: for a state `y = [x, v]` return
`[dx, dv] = [v, -k*x/m]`.  The globals `m = 1.0`, `k = 1.0` of the notebook
are passed as explicit parameters.  (Python's `y[0]`/`y[1]` are embedded as
`getD` with default `0`; every use in the source has length-2 states.) -/
def SHO_deriv (k m : ℚ) (y : List ℚ) (t : ℚ) : List ℚ :=
  let x := y.getD 0 0
  let v := y.getD 1 0
  let dx := v
  let dv := -k * x / m
  [dx, dv]

lemma eulerTraj_length (deriv : List ℚ → ℚ → List ℚ) (y0 : List ℚ)
    (t0 dt : ℚ) (n : ℕ) : (eulerTraj deriv y0 t0 dt n).length = n + 1 := by
  simp [eulerTraj]

lemma eulerTraj_getD (deriv : List ℚ → ℚ → List ℚ) (y0 : List ℚ)
    (t0 dt : ℚ) (n i : ℕ) (h : i ≤ n) :
    (eulerTraj deriv y0 t0 dt n).getD i [] = eulerState deriv y0 t0 dt i := by
  have hlen : i < (eulerTraj deriv y0 t0 dt n).length := by
    rw [eulerTraj_length]; omega
  rw [List.getD_eq_getElem _ _ hlen]
  simp [eulerTraj]

/-- Claim C1: For every derivative function, initial state `y0`, start time
`t0`, step size `dt` and step count `n ≥ 0`, the fixed-step Euler loop
produces a trajectory of length `n + 1` with `trajectory[0] = y0` exactly,
and for every `i < n`,
`trajectory[i+1] = trajectory[i] + derivative(trajectory[i], t0 + i*dt) * dt`,
the derivative being evaluated at the left endpoint of each step. -/
theorem euler_contract (deriv : List ℚ → ℚ → List ℚ) (y0 : List ℚ)
    (t0 dt : ℚ) (n : ℕ) :
    (eulerTraj deriv y0 t0 dt n).length = n + 1 ∧
    (eulerTraj deriv y0 t0 dt n).getD 0 [] = y0 ∧
    ∀ i : ℕ, i < n →
      (eulerTraj deriv y0 t0 dt n).getD (i + 1) [] =
        vecAdd ((eulerTraj deriv y0 t0 dt n).getD i [])
          (vecScale
            (deriv ((eulerTraj deriv y0 t0 dt n).getD i []) (t0 + (i : ℚ) * dt))
            dt) := by
  refine ⟨eulerTraj_length deriv y0 t0 dt n, ?_, ?_⟩
  · rw [eulerTraj_getD deriv y0 t0 dt n 0 (Nat.zero_le n)]
    rfl
  · intro i hi
    rw [eulerTraj_getD deriv y0 t0 dt n (i + 1) (by omega),
        eulerTraj_getD deriv y0 t0 dt n i (by omega)]
    rfl

/-- Instance of `euler_contract` at the source's SHO derivative with
`y0 = [1, 0]`, `t0 = 0`, `dt = 1`, `n = 1`, checking the step relation at
`i = 0`. -/
theorem euler_contract_witness :
    (eulerTraj (SHO_deriv 1 1) [1, 0] 0 1 1).length = 2 ∧
    (eulerTraj (SHO_deriv 1 1) [1, 0] 0 1 1).getD 0 [] = [1, 0] ∧
    (eulerTraj (SHO_deriv 1 1) [1, 0] 0 1 1).getD 1 [] =
      vecAdd ((eulerTraj (SHO_deriv 1 1) [1, 0] 0 1 1).getD 0 [])
        (vecScale
          (SHO_deriv 1 1 ((eulerTraj (SHO_deriv 1 1) [1, 0] 0 1 1).getD 0 [])
            (0 + ((0 : ℕ) : ℚ) * 1))
          1) := by
  have h := euler_contract (SHO_deriv 1 1) [1, 0] 0 1 1
  exact ⟨h.1, h.2.1, h.2.2 0 (by decide)⟩

/-- The direct scalar translation of the SHO equations from the source:
`x[i+1] = x[i] + v[i] * dt` and `v[i+1] = v[i] - (k*x[i]/m) * dt`,
returning the pair `(x[i], v[i])`. -/
def scalarSHO (k m x0 v0 dt : ℚ) : ℕ → ℚ × ℚ
  | 0 => (x0, v0)
  | i + 1 =>
    let p := scalarSHO k m x0 v0 dt i
    (p.1 + p.2 * dt, p.2 - (k * p.1 / m) * dt)

lemma eulerState_SHO (k m a b t0 dt : ℚ) (n : ℕ) :
    eulerState (SHO_deriv k m) [a, b] t0 dt n =
      [(scalarSHO k m a b dt n).1, (scalarSHO k m a b dt n).2] := by
  induction n with
  | zero => rfl
  | succ i ih =>
      show eulerStep (SHO_deriv k m) dt (eulerState (SHO_deriv k m) [a, b] t0 dt i)
          (t0 + (i : ℚ) * dt) = _
      rw [ih]
      show [(scalarSHO k m a b dt i).1 + (scalarSHO k m a b dt i).2 * dt,
            (scalarSHO k m a b dt i).2 +
              -k * (scalarSHO k m a b dt i).1 / m * dt] = _
      show _ = [(scalarSHO k m a b dt i).1 + (scalarSHO k m a b dt i).2 * dt,
                (scalarSHO k m a b dt i).2 -
                  (k * (scalarSHO k m a b dt i).1 / m) * dt]
      have h2 : (scalarSHO k m a b dt i).2 +
          -k * (scalarSHO k m a b dt i).1 / m * dt =
          (scalarSHO k m a b dt i).2 -
            (k * (scalarSHO k m a b dt i).1 / m) * dt := by ring
      rw [h2]

/-- Claim C9: For every initial condition `(x0, v0)`, step size `dt` and step
count `i`, the direct scalar translation of the SHO equations (separate `x`
and `v` arrays updated with `x[i+1] = x[i] + v[i]*dt` and
`v[i+1] = v[i] - (k*x[i]/m)*dt`) and the generic vector Euler loop driven by
`SHO_deriv` compute identical sequences: `x[i] = y[i][0]` and
`v[i] = y[i][1]` for all `i`. -/
theorem scalar_vector_equiv (k m x0 v0 t0 dt : ℚ) (i : ℕ) :
    (scalarSHO k m x0 v0 dt i).1 =
      (eulerState (SHO_deriv k m) [x0, v0] t0 dt i).getD 0 0 ∧
    (scalarSHO k m x0 v0 dt i).2 =
      (eulerState (SHO_deriv k m) [x0, v0] t0 dt i).getD 1 0 := by
  rw [eulerState_SHO]
  exact ⟨rfl, rfl⟩

lemma getD_map_zero (f : ℚ → ℚ) (l : List ℚ) (j : ℕ) (h : j < l.length) :
    (l.map f).getD j 0 = f (l.getD j 0) := by
  induction l generalizing j with
  | nil => simp at h
  | cons a l ih =>
      cases j with
      | zero => rfl
      | succ j =>
          simp only [List.map_cons, List.getD_cons_succ]
          exact ih j (by simpa using h)

lemma getD_zipWith_add (u w : List ℚ) (j : ℕ) (hu : j < u.length)
    (hw : j < w.length) :
    (List.zipWith (· + ·) u w).getD j 0 = u.getD j 0 + w.getD j 0 := by
  induction u generalizing w j with
  | nil => simp at hu
  | cons a u ih =>
      cases w with
      | nil => simp at hw
      | cons b w =>
          cases j with
          | zero => rfl
          | succ j =>
              simp only [List.zipWith_cons_cons, List.getD_cons_succ]
              exact ih w j (by simpa using hu) (by simpa using hw)

lemma vecAdd_length (u w : List ℚ) :
    (vecAdd u w).length = min u.length w.length := by
  simp [vecAdd]

lemma vecAdd_getD (u w : List ℚ) (j : ℕ) (hu : j < u.length)
    (hw : j < w.length) :
    (vecAdd u w).getD j 0 = u.getD j 0 + w.getD j 0 :=
  getD_zipWith_add u w j hu hw

lemma vecScale_length (v : List ℚ) (c : ℚ) : (vecScale v c).length = v.length := by
  simp [vecScale]

lemma vecScale_getD (v : List ℚ) (c : ℚ) (j : ℕ) (h : j < v.length) :
    (vecScale v c).getD j 0 = v.getD j 0 * c :=
  getD_map_zero (· * c) v j h

/-- numpy `+` on two same-shape rank-2 arrays: rowwise `vecAdd`. -/
def matAdd (A B : List (List ℚ)) : List (List ℚ) := List.zipWith vecAdd A B

/-- numpy scalar multiplication `arr * c` on a rank-2 array. -/
def matScale (A : List (List ℚ)) (c : ℚ) : List (List ℚ) :=
  A.map (fun row => vecScale row c)

/-- `SHO_deriv` applied to a rank-2 state, as in the 2-D example of the
source (the same Python function, unchanged): numpy `y[0]` / `y[1]` now
select the position and velocity rows, and `-k*x/m` acts elementwise on the
position row. -/
def SHO_deriv2 (k m : ℚ) (y : List (List ℚ)) (t : ℚ) : List (List ℚ) :=
  let x := y.getD 0 []
  let v := y.getD 1 []
  let dx := v
  let dv := x.map (fun xi => -k * xi / m)
  [dx, dv]

/-- One explicit-Euler update on a rank-2 state
(`y2d[i+1] = y2d[i] + SHO_deriv(y2d[i],time[i]) * dt`). -/
def eulerStep2 (deriv : List (List ℚ) → ℚ → List (List ℚ)) (dt : ℚ)
    (y : List (List ℚ)) (t : ℚ) : List (List ℚ) :=
  matAdd y (matScale (deriv y t) dt)

/-- State after `i` Euler steps of the rank-2 loop. -/
def eulerState2 (deriv : List (List ℚ) → ℚ → List (List ℚ))
    (y0 : List (List ℚ)) (t0 dt : ℚ) : ℕ → List (List ℚ)
  | 0 => y0
  | i + 1 => eulerStep2 deriv dt (eulerState2 deriv y0 t0 dt i) (t0 + (i : ℚ) * dt)

/-- The whole rank-2 trajectory `y2d[0], ..., y2d[n]`. -/
def eulerTraj2 (deriv : List (List ℚ) → ℚ → List (List ℚ))
    (y0 : List (List ℚ)) (t0 dt : ℚ) (n : ℕ) : List (List (List ℚ)) :=
  (List.range (n + 1)).map (eulerState2 deriv y0 t0 dt)

/-- Sub-vector along the batch (trailing) axis of a rank-2 state:
component `j` of every row. -/
def col (j : ℕ) (A : List (List ℚ)) : List ℚ := A.map (fun row => row.getD j 0)

lemma eulerState2_SHO (k m : ℚ) (X0 V0 : List ℚ) (t0 dt : ℚ)
    (hlen : V0.length = X0.length) (n : ℕ) :
    ∃ X V, eulerState2 (SHO_deriv2 k m) [X0, V0] t0 dt n = [X, V] ∧
      X.length = X0.length ∧ V.length = X0.length ∧
      ∀ j, j < X0.length →
        X.getD j 0 = (scalarSHO k m (X0.getD j 0) (V0.getD j 0) dt n).1 ∧
        V.getD j 0 = (scalarSHO k m (X0.getD j 0) (V0.getD j 0) dt n).2 := by
  induction n with
  | zero => exact ⟨X0, V0, rfl, rfl, hlen, fun j hj => ⟨rfl, rfl⟩⟩
  | succ i ih =>
      obtain ⟨X, V, hEq, hX, hV, hcols⟩ := ih
      refine ⟨vecAdd X (vecScale V dt),
        vecAdd V (vecScale (X.map (fun xi => -k * xi / m)) dt), ?_, ?_, ?_, ?_⟩
      · show eulerStep2 (SHO_deriv2 k m) dt
            (eulerState2 (SHO_deriv2 k m) [X0, V0] t0 dt i) (t0 + (i : ℚ) * dt) = _
        rw [hEq]
        rfl
      · rw [vecAdd_length, vecScale_length, hX, hV]
        omega
      · rw [vecAdd_length, vecScale_length, List.length_map, hX, hV]
        omega
      · intro j hj
        have hjX : j < X.length := by omega
        have hjV : j < V.length := by omega
        constructor
        · rw [vecAdd_getD X (vecScale V dt) j hjX
            (by rw [vecScale_length]; omega)]
          rw [vecScale_getD V dt j hjV]
          rw [(hcols j hj).1, (hcols j hj).2]
          rfl
        · rw [vecAdd_getD V (vecScale (X.map (fun xi => -k * xi / m)) dt) j hjV
            (by rw [vecScale_length, List.length_map]; omega)]
          rw [vecScale_getD (X.map (fun xi => -k * xi / m)) dt j
            (by rw [List.length_map]; omega)]
          rw [getD_map_zero (fun xi => -k * xi / m) X j hjX]
          rw [(hcols j hj).1, (hcols j hj).2]
          show (scalarSHO k m (X0.getD j 0) (V0.getD j 0) dt i).2 +
              -k * (scalarSHO k m (X0.getD j 0) (V0.getD j 0) dt i).1 / m * dt =
              (scalarSHO k m (X0.getD j 0) (V0.getD j 0) dt i).2 -
                k * (scalarSHO k m (X0.getD j 0) (V0.getD j 0) dt i).1 / m * dt
          ring

/-- Claim C7: For the source's elementwise derivative, integrating a batched
rank-2 state `[x2d0, v2d0]` yields, for each index `j` along the batch
(trailing) axis, exactly the trajectory obtained by integrating the
sub-vector `[x2d0[j], v2d0[j]]` alone with the rank-1 loop, with the same
`t0`, `dt` and step count `n`. -/
theorem sho_batched_broadcast (k m : ℚ) (x2d0 v2d0 : List ℚ) (t0 dt : ℚ)
    (n j : ℕ) (hlen : v2d0.length = x2d0.length) (hj : j < x2d0.length) :
    (eulerTraj2 (SHO_deriv2 k m) [x2d0, v2d0] t0 dt n).map (col j) =
      eulerTraj (SHO_deriv k m) [x2d0.getD j 0, v2d0.getD j 0] t0 dt n := by
  unfold eulerTraj2 eulerTraj
  rw [List.map_map]
  apply List.map_congr_left
  intro i _
  obtain ⟨X, V, hEq, hX, hV, hcols⟩ := eulerState2_SHO k m x2d0 v2d0 t0 dt hlen i
  rw [Function.comp_apply, hEq, eulerState_SHO]
  show [X.getD j 0, V.getD j 0] = _
  rw [(hcols j hj).1, (hcols j hj).2]

/-- Instance of `sho_batched_broadcast` at the source's 2-D initial data
`x2d0 = [1, 0]`, `v2d0 = [0, 1]` with `k = m = 1`, `t0 = 0`, `dt = 1`,
`n = 2`, batch index `j = 0`. -/
theorem sho_batched_broadcast_witness :
    (eulerTraj2 (SHO_deriv2 1 1) [[1, 0], [0, 1]] 0 1 2).map (col 0) =
      eulerTraj (SHO_deriv 1 1) [[(1 : ℚ), 0].getD 0 0, [(0 : ℚ), 1].getD 0 0]
        0 1 2 :=
  sho_batched_broadcast 1 1 [1, 0] [0, 1] 0 1 2 0 (by decide) (by decide)

/-- The trajectory construction of the source including the preallocation:
`y = np.zeros((N_steps,2))`, then `y[0] = y0`, then the loop over
`range(0, N_steps-1)`, with the array length `N_steps` an arbitrary
integer.  `np.zeros` raises `ValueError` for a negative `N_steps`, and the
assignment `y[0] = y0` raises `IndexError` when `N_steps = 0`; both error
paths are modelled as `none`.  For `N_steps ≥ 1` the loop body executes
`N_steps - 1` times and the filled array is returned. -/
def eulerTrajPre (deriv : List ℚ → ℚ → List ℚ) (y0 : List ℚ) (t0 dt : ℚ)
    (nSteps : ℤ) : Option (List (List ℚ)) :=
  if nSteps ≤ 0 then none
  else some (eulerTraj deriv y0 t0 dt (nSteps.toNat - 1))

/-- numpy addition of two rank-1 arrays including length-1 broadcasting:
equal lengths add elementwise, a length-1 operand is broadcast against the
other, and any other length combination raises (numpy `ValueError`),
modelled as `none`. -/
def npAdd (u v : List ℚ) : Option (List ℚ) :=
  if u.length = v.length then some (List.zipWith (· + ·) u v)
  else if u.length = 1 then some (v.map (u.getD 0 0 + ·))
  else if v.length = 1 then some (u.map (· + v.getD 0 0))
  else none

/-- The Euler state recursion with numpy's actual addition semantics
(`npAdd`), which can fail on non-broadcastable shapes: `none` models a
raised `ValueError`. -/
def eulerStateO (deriv : List ℚ → ℚ → List ℚ) (y0 : List ℚ) (t0 dt : ℚ) :
    ℕ → Option (List ℚ)
  | 0 => some y0
  | i + 1 =>
    (eulerStateO deriv y0 t0 dt i).bind fun y =>
      npAdd y (vecScale (deriv y (t0 + (i : ℚ) * dt)) dt)

/-- Claim C8, counterexample: the claim says the integrator fails with
`ShapeMismatch` whenever the derivative returns a value whose shape differs
from `y0`'s shape.  It does not: a derivative returning the length-1 array
`[5]`, whose shape differs from the length-2 state `[1, 0]`, is broadcast
by numpy's addition and every step succeeds normally (a `some` result,
`[11, 10]` after two steps with `dt = 1`), with no shape error. -/
theorem euler_shape_mismatch_counterexample :
    ([(5 : ℚ)].length ≠ ([1, 0] : List ℚ).length) ∧
    eulerStateO (fun _ _ => [5]) [1, 0] 0 1 2 = some [11, 10] := by
  refine ⟨by decide, ?_⟩
  norm_num [eulerStateO, npAdd, vecScale]

lemma npAdd_singleton (y : List ℚ) (a : ℚ) :
    ∃ z, npAdd y [a] = some z ∧ z.length = y.length := by
  unfold npAdd
  by_cases hc : y.length = [a].length
  · rw [if_pos hc]
    refine ⟨_, rfl, ?_⟩
    rw [List.length_zipWith]
    simp at hc ⊢
    omega
  · have ha : [a].length = 1 := rfl
    rw [if_neg hc, if_neg (by simpa using hc), if_pos ha]
    exact ⟨_, rfl, by simp⟩

/-- Claim C8, amended: The integrator performs no input validation.  A
negative step count `n` (array length `N_steps = n + 1 ≤ 0`) does make the
code fail, but through numpy's incidental `ValueError`/`IndexError` in the
preallocation `np.zeros((N_steps,2))` and the assignment `y[0] = y0`, not
through an `InvalidStepCount` check; for `n ≥ 0` the filled trajectory is
returned.  A derivative output whose shape differs from `y0`'s does not
generally fail: a broadcastable length-1 output is silently broadcast,
every step returning a `some` state of `y0`'s length (only non-broadcastable
shapes raise numpy's own error).  `dt = 0` is not an error and produces a
constant trajectory equal to `y0` at every index (for a shape-preserving
derivative). -/
theorem euler_no_validation (deriv : List ℚ → ℚ → List ℚ) (y0 : List ℚ)
    (t0 dt : ℚ) (hd : ∀ y t, (deriv y t).length = y.length) :
    (∀ n : ℤ, n < 0 → eulerTrajPre deriv y0 t0 dt (n + 1) = none) ∧
    (∀ n : ℤ, 0 ≤ n → eulerTrajPre deriv y0 t0 dt (n + 1) =
      some (eulerTraj deriv y0 t0 dt n.toNat)) ∧
    (∀ i : ℕ, eulerState deriv y0 t0 0 i = y0) ∧
    (∀ c : ℚ, 1 ≤ y0.length → ∀ i : ℕ,
      ∃ y, eulerStateO (fun _ _ => [c]) y0 t0 dt i = some y ∧
        y.length = y0.length) := by
  refine ⟨?_, ?_, ?_, ?_⟩
  · intro n hn
    rw [eulerTrajPre, if_pos (by omega)]
  · intro n hn
    rw [eulerTrajPre, if_neg (by omega)]
    have ht : (n + 1).toNat - 1 = n.toNat := by omega
    rw [ht]
  · intro i
    induction i with
    | zero => rfl
    | succ i ih =>
        show eulerStep deriv 0 (eulerState deriv y0 t0 0 i) (t0 + (i : ℚ) * 0) = y0
        rw [ih]
        show vecAdd y0 (vecScale (deriv y0 (t0 + (i : ℚ) * 0)) 0) = y0
        have hlen : (deriv y0 (t0 + (i : ℚ) * 0)).length = y0.length :=
          hd y0 (t0 + (i : ℚ) * 0)
        generalize deriv y0 (t0 + (i : ℚ) * 0) = d at hlen
        clear ih hd
        induction y0 generalizing d with
        | nil => simp [vecAdd]
        | cons a l ihl =>
            cases d with
            | nil => simp at hlen
            | cons b d =>
                show (a + b * 0) :: vecAdd l (vecScale d 0) = a :: l
                rw [ihl d (by simpa using hlen)]
                norm_num
  · intro c h1 i
    induction i with
    | zero => exact ⟨y0, rfl, rfl⟩
    | succ i ih =>
        obtain ⟨y, hy, hylen⟩ := ih
        have hstep : eulerStateO (fun _ _ => [c]) y0 t0 dt (i + 1) =
            npAdd y (vecScale [c] dt) := by
          show ((eulerStateO (fun _ _ => [c]) y0 t0 dt i).bind fun z =>
              npAdd z (vecScale [c] dt)) = npAdd y (vecScale [c] dt)
          rw [hy]
          rfl
        obtain ⟨z, hz, hzlen⟩ := npAdd_singleton y (c * dt)
        exact ⟨z, by rw [hstep]; exact hz, by rw [hzlen, hylen]⟩

/-- Instance of `euler_no_validation` at `deriv y t = y`, `y0 = [1, 2]`,
`t0 = 0`, `dt = 3`: a step count of `-1` makes the construction fail
(`none`), a step count of `2` returns the filled trajectory, `dt = 0`
keeps the state at `[1, 2]`, and a broadcast length-1 derivative output
succeeds. -/
theorem euler_no_validation_witness :
    eulerTrajPre (fun y _ => y) [1, 2] 0 3 (-1 + 1) = none ∧
    eulerTrajPre (fun y _ => y) [1, 2] 0 3 (2 + 1) =
      some (eulerTraj (fun y _ => y) [1, 2] 0 3 (2 : ℤ).toNat) ∧
    eulerState (fun y _ => y) [1, 2] 0 0 2 = [1, 2] ∧
    ∃ y, eulerStateO (fun _ _ => [7]) [1, 2] 0 3 1 = some y ∧ y.length = 2 := by
  have h := euler_no_validation (fun y _ => y) [1, 2] 0 3 (fun _ _ => rfl)
  exact ⟨h.1 (-1) (by decide), h.2.1 2 (by decide), h.2.2.1 2,
    h.2.2.2 7 (by decide) 1⟩

/-- Loop state of the bisection search of `BVP.ipynb`: the bracket
`(v0_1, f_1), (v0_2, f_2)`, the last midpoint `v0_mid` and its residual
`f_mid`, and the iteration counter. -/
structure LoopState where
  x1 : ℚ
  f1 : ℚ
  x2 : ℚ
  f2 : ℚ
  xmid : ℚ
  fmid : ℚ
  iter : ℕ
deriving DecidableEq

/-- State just before the `while` loop: residuals of both endpoints are
evaluated, `iter = 0`, and `f_mid = 10*tol` (the sentinel "just to ensure
that we enter the while loop").  `v0_mid` is unbound in the source before
the first iteration; it gets the dummy value `0` here, and every statement
below about `xmid` concerns runs that execute at least one iteration, which
overwrite it. -/
def bisectInit (residual : ℚ → ℚ) (tol x1 x2 : ℚ) : LoopState :=
  { x1 := x1, f1 := residual x1, x2 := x2, f2 := residual x2,
    xmid := 0, fmid := 10 * tol, iter := 0 }

/-- The body of the bisection `while` loop:
`v0_mid = 0.5*(v0_1 + v0_2)`; `f_mid = residual(v0_mid)`;
if `f_mid*f_1 > 0` replace the low endpoint, else replace the high one;
`iter = iter + 1`. -/
def loopBody (residual : ℚ → ℚ) (s : LoopState) : LoopState :=
  let v0_mid := 0.5 * (s.x1 + s.x2)
  let f_mid := residual v0_mid
  if f_mid * s.f1 > 0 then
    { s with x1 := v0_mid, f1 := f_mid, xmid := v0_mid, fmid := f_mid,
             iter := s.iter + 1 }
  else
    { s with x2 := v0_mid, f2 := f_mid, xmid := v0_mid, fmid := f_mid,
             iter := s.iter + 1 }

/-- The `while abs(f_mid)>tol and iter<max_iter` loop, with the remaining
iteration budget `max_iter - iter` as structural fuel (the counter `iter`
rises by one per body execution, so fuel `> 0` is exactly
`iter < max_iter`). -/
def bisectRun (residual : ℚ → ℚ) (tol : ℚ) : ℕ → LoopState → LoopState
  | 0, s => s
  | fuel + 1, s =>
    if |s.fmid| > tol then bisectRun residual tol fuel (loopBody residual s)
    else s

/-- The whole bisection search: initialise the bracket from the two
caller-supplied endpoints and run the `while` loop. -/
def bisect (residual : ℚ → ℚ) (tol : ℚ) (maxIter : ℕ) (x1 x2 : ℚ) :
    LoopState :=
  bisectRun residual tol maxIter (bisectInit residual tol x1 x2)

/-- `k` unconditional executions of the loop body (the state after `k`
performed bisection iterations, ignoring the stopping test). -/
def bodyIter (residual : ℚ → ℚ) : ℕ → LoopState → LoopState
  | 0, s => s
  | k + 1, s => bodyIter residual k (loopBody residual s)

/-- Claim C2: Each bisection iteration computes `xmid = 0.5*(x1+x2)` and
`fmid = residual(xmid)`; if `fmid * f1 > 0` (strict, so an exactly-zero
`fmid` does not satisfy it) the low endpoint is replaced,
`(x1,f1) := (xmid,fmid)`, the high endpoint and its residual staying
untouched; otherwise the high endpoint is replaced,
`(x2,f2) := (xmid,fmid)`, the low endpoint staying untouched.  Exactly one
endpoint is replaced per iteration. -/
theorem bisect_step_spec (residual : ℚ → ℚ) (s : LoopState) :
    (residual (0.5 * (s.x1 + s.x2)) * s.f1 > 0 →
      loopBody residual s =
        { s with x1 := 0.5 * (s.x1 + s.x2),
                 f1 := residual (0.5 * (s.x1 + s.x2)),
                 xmid := 0.5 * (s.x1 + s.x2),
                 fmid := residual (0.5 * (s.x1 + s.x2)),
                 iter := s.iter + 1 }) ∧
    (¬ residual (0.5 * (s.x1 + s.x2)) * s.f1 > 0 →
      loopBody residual s =
        { s with x2 := 0.5 * (s.x1 + s.x2),
                 f2 := residual (0.5 * (s.x1 + s.x2)),
                 xmid := 0.5 * (s.x1 + s.x2),
                 fmid := residual (0.5 * (s.x1 + s.x2)),
                 iter := s.iter + 1 }) := by
  constructor
  · intro h
    rw [loopBody]
    exact if_pos h
  · intro h
    rw [loopBody]
    exact if_neg h

/-- Instance of `bisect_step_spec` with `residual x = x` at two states: at
`⟨1, 1, 3, 3, 0, 0, 0⟩` the midpoint residual `2` shares `f1`'s sign, so the
low endpoint is replaced; at `⟨-1, -1, 1, 1, 0, 0, 0⟩` the midpoint residual
is exactly `0`, which fails the strict test `fmid*f1 > 0`, so the high
endpoint is replaced. -/
theorem bisect_step_spec_witness :
    loopBody (fun x => x) ⟨1, 1, 3, 3, 0, 0, 0⟩ = ⟨2, 2, 3, 3, 2, 2, 1⟩ ∧
    loopBody (fun x => x) ⟨-1, -1, 1, 1, 0, 0, 0⟩ = ⟨-1, -1, 0, 0, 0, 0, 1⟩ := by
  constructor
  · have h := (bisect_step_spec (fun x => x) ⟨1, 1, 3, 3, 0, 0, 0⟩).1
    rw [h (by norm_num)]
    norm_num
  · have h := (bisect_step_spec (fun x => x) ⟨-1, -1, 1, 1, 0, 0, 0⟩).2
    rw [h (by norm_num)]
    norm_num

lemma loopBody_iter (residual : ℚ → ℚ) (s : LoopState) :
    (loopBody residual s).iter = s.iter + 1 := by
  simp only [loopBody]
  split <;> rfl

lemma bisectRun_iter_bound (residual : ℚ → ℚ) (tol : ℚ) (fuel : ℕ)
    (s : LoopState) :
    (bisectRun residual tol fuel s).iter ≤ s.iter + fuel := by
  induction fuel generalizing s with
  | zero => exact Nat.le_refl _
  | succ fuel ih =>
      rw [bisectRun]
      by_cases h : |s.fmid| > tol
      · rw [if_pos h]
        have hb := ih (loopBody residual s)
        rw [loopBody_iter] at hb
        omega
      · rw [if_neg h]
        omega

lemma bisectRun_iter_ge (residual : ℚ → ℚ) (tol : ℚ) (fuel : ℕ)
    (s : LoopState) :
    s.iter ≤ (bisectRun residual tol fuel s).iter := by
  induction fuel generalizing s with
  | zero => exact Nat.le_refl _
  | succ fuel ih =>
      rw [bisectRun]
      by_cases h : |s.fmid| > tol
      · rw [if_pos h]
        have hb := ih (loopBody residual s)
        rw [loopBody_iter] at hb
        omega
      · rw [if_neg h]

lemma bisectRun_stop (residual : ℚ → ℚ) (tol : ℚ) (fuel : ℕ)
    (s : LoopState) :
    |(bisectRun residual tol fuel s).fmid| ≤ tol ∨
      (bisectRun residual tol fuel s).iter = s.iter + fuel := by
  induction fuel generalizing s with
  | zero => right; rfl
  | succ fuel ih =>
      rw [bisectRun]
      by_cases h : |s.fmid| > tol
      · rw [if_pos h]
        rcases ih (loopBody residual s) with h1 | h1
        · exact Or.inl h1
        · right
          rw [h1, loopBody_iter]
          omega
      · rw [if_neg h]
        exact Or.inl (le_of_not_lt h)

/-- Claim C4: The bisection loop terminates exactly when `|fmid| ≤ tol` or
the iteration count reaches `maxIter`: the final state satisfies the negated
guard (`iter` never exceeds `maxIter`, and either the final residual is
within tolerance or all `maxIter` iterations were used), and whenever the
final residual is still out of tolerance the budget was exhausted,
`iter = maxIter`.  Exhaustion is a normal outcome (the loop returns a plain
state, there is no error path), and the returned state carries `fmid` and
`iter`, which distinguish the converged case (`|fmid| ≤ tol`) from the
exhausted one (`iter = maxIter` with `|fmid| > tol`). -/
theorem bisect_termination (residual : ℚ → ℚ) (tol : ℚ) (maxIter : ℕ)
    (x1 x2 : ℚ) :
    (bisect residual tol maxIter x1 x2).iter ≤ maxIter ∧
    (|(bisect residual tol maxIter x1 x2).fmid| ≤ tol ∨
      (bisect residual tol maxIter x1 x2).iter = maxIter) ∧
    (tol < |(bisect residual tol maxIter x1 x2).fmid| →
      (bisect residual tol maxIter x1 x2).iter = maxIter) := by
  have hb := bisectRun_iter_bound residual tol maxIter (bisectInit residual tol x1 x2)
  have hs := bisectRun_stop residual tol maxIter (bisectInit residual tol x1 x2)
  have h0 : (bisectInit residual tol x1 x2).iter = 0 := rfl
  rw [h0] at hb hs
  refine ⟨by rw [bisect]; omega, ?_, ?_⟩
  · rcases hs with h1 | h1
    · exact Or.inl h1
    · right
      rw [bisect, h1]
      omega
  · intro hgt
    rcases hs with h1 | h1
    · rw [bisect] at hgt
      exact absurd h1 (not_le.mpr hgt)
    · rw [bisect, h1]
      omega

/-- Instance of `bisect_termination` with `residual x = x`, `tol = 1`,
`maxIter = 1`, bracket `(1, 3)`: the single allowed iteration leaves the
residual `2` out of tolerance, so the run reports `iter = maxIter`. -/
theorem bisect_termination_witness :
    (bisect (fun x => x) 1 1 1 3).iter ≤ 1 ∧
    (|(bisect (fun x => x) 1 1 1 3).fmid| ≤ 1 ∨
      (bisect (fun x => x) 1 1 1 3).iter = 1) ∧
    (bisect (fun x => x) 1 1 1 3).iter = 1 := by
  have h := bisect_termination (fun x => x) 1 1 1 3
  refine ⟨h.1, h.2.1, h.2.2 ?_⟩
  norm_num [bisect, bisectRun, bisectInit, loopBody]

lemma loopBody_bracket (residual : ℚ → ℚ) (s : LoopState)
    (h : s.f1 * s.f2 ≤ 0) :
    (loopBody residual s).f1 * (loopBody residual s).f2 ≤ 0 := by
  simp only [loopBody]
  split
  case isTrue hpos =>
    show residual (0.5 * (s.x1 + s.x2)) * s.f2 ≤ 0
    by_contra hc
    push_neg at hc
    nlinarith [mul_pos hpos hc, h, sq_nonneg (residual (0.5 * (s.x1 + s.x2)))]
  case isFalse hneg =>
    show s.f1 * residual (0.5 * (s.x1 + s.x2)) ≤ 0
    push_neg at hneg
    calc s.f1 * residual (0.5 * (s.x1 + s.x2)) =
        residual (0.5 * (s.x1 + s.x2)) * s.f1 := by ring
      _ ≤ 0 := hneg

lemma bodyIter_bracket (residual : ℚ → ℚ) (k : ℕ) (s : LoopState)
    (h : s.f1 * s.f2 ≤ 0) :
    (bodyIter residual k s).f1 * (bodyIter residual k s).f2 ≤ 0 := by
  induction k generalizing s with
  | zero => exact h
  | succ k ih => exact ih (loopBody residual s) (loopBody_bracket residual s h)

lemma bisectRun_bracket (residual : ℚ → ℚ) (tol : ℚ) (fuel : ℕ)
    (s : LoopState) (h : s.f1 * s.f2 ≤ 0) :
    (bisectRun residual tol fuel s).f1 * (bisectRun residual tol fuel s).f2 ≤ 0 := by
  induction fuel generalizing s with
  | zero => exact h
  | succ fuel ih =>
      rw [bisectRun]
      by_cases hg : |s.fmid| > tol
      · rw [if_pos hg]
        exact ih (loopBody residual s) (loopBody_bracket residual s h)
      · rw [if_neg hg]
        exact h

/-- Claim C5: The bracket invariant `f1 * f2 ≤ 0` (the two endpoint residuals
have opposite signs or one is exactly zero) holds after every iteration of
the bisection search, given that it holds for the initial bracket: the
endpoint-replacement rule preserves it, both along `k` unconditional body
executions and along the guarded `while` loop itself. -/
theorem bisect_bracket_invariant (residual : ℚ → ℚ) (tol : ℚ)
    (s : LoopState) (h : s.f1 * s.f2 ≤ 0) :
    (∀ k : ℕ, (bodyIter residual k s).f1 * (bodyIter residual k s).f2 ≤ 0) ∧
    ∀ fuel : ℕ,
      (bisectRun residual tol fuel s).f1 * (bisectRun residual tol fuel s).f2 ≤ 0 :=
  ⟨fun k => bodyIter_bracket residual k s h,
   fun fuel => bisectRun_bracket residual tol fuel s h⟩

/-- Instance of `bisect_bracket_invariant` with `residual x = x` on the
initial bracket `(-1, 2)` (residual signs `-`, `+`), after one body
execution and after one guarded iteration. -/
theorem bisect_bracket_invariant_witness :
    (bodyIter (fun x => x) 1 (bisectInit (fun x => x) 1 (-1) 2)).f1 *
      (bodyIter (fun x => x) 1 (bisectInit (fun x => x) 1 (-1) 2)).f2 ≤ 0 ∧
    (bisectRun (fun x => x) 1 1 (bisectInit (fun x => x) 1 (-1) 2)).f1 *
      (bisectRun (fun x => x) 1 1 (bisectInit (fun x => x) 1 (-1) 2)).f2 ≤ 0 := by
  have h := bisect_bracket_invariant (fun x => x) 1
    (bisectInit (fun x => x) 1 (-1) 2) (by norm_num [bisectInit])
  exact ⟨h.1 1, h.2 1⟩

lemma loopBody_width (residual : ℚ → ℚ) (s : LoopState) :
    |(loopBody residual s).x2 - (loopBody residual s).x1| =
      |s.x2 - s.x1| / 2 := by
  simp only [loopBody]
  split
  · show |s.x2 - 0.5 * (s.x1 + s.x2)| = |s.x2 - s.x1| / 2
    rw [show s.x2 - 0.5 * (s.x1 + s.x2) = (s.x2 - s.x1) / 2 by ring, abs_div]
    norm_num
  · show |0.5 * (s.x1 + s.x2) - s.x1| = |s.x2 - s.x1| / 2
    rw [show 0.5 * (s.x1 + s.x2) - s.x1 = (s.x2 - s.x1) / 2 by ring, abs_div]
    norm_num

/-- Claim C6: For every initial bracket and every residual function, after
`k` executed bisection iterations the bracket width satisfies
`|x2 - x1| = |x2_initial - x1_initial| / 2^k` exactly, independent of the
residual's values. -/
theorem bisect_width_halving (residual : ℚ → ℚ) (s : LoopState) (k : ℕ) :
    |(bodyIter residual k s).x2 - (bodyIter residual k s).x1| =
      |s.x2 - s.x1| / 2 ^ k := by
  induction k generalizing s with
  | zero => simp [bodyIter]
  | succ k ih =>
      show |(bodyIter residual k (loopBody residual s)).x2 -
          (bodyIter residual k (loopBody residual s)).x1| = _
      rw [ih (loopBody residual s), loopBody_width, pow_succ]
      rw [div_div, mul_comm (2 : ℚ) (2 ^ k)]

lemma loopBody_fresh (residual : ℚ → ℚ) (s : LoopState) :
    (loopBody residual s).fmid = residual (loopBody residual s).xmid := by
  simp only [loopBody]
  split <;> rfl

lemma bisectRun_fresh (residual : ℚ → ℚ) (tol : ℚ) (fuel : ℕ)
    (s : LoopState) (h : s.fmid = residual s.xmid) :
    (bisectRun residual tol fuel s).fmid =
      residual (bisectRun residual tol fuel s).xmid := by
  induction fuel generalizing s with
  | zero => exact h
  | succ fuel ih =>
      rw [bisectRun]
      by_cases hg : |s.fmid| > tol
      · rw [if_pos hg]
        exact ih (loopBody residual s) (loopBody_fresh residual s)
      · rw [if_neg hg]
        exact h

lemma loopBody_inside (residual : ℚ → ℚ) (a b : ℚ) (s : LoopState)
    (h1 : a ≤ s.x1) (h2 : s.x1 < s.x2) (h3 : s.x2 ≤ b) :
    a ≤ (loopBody residual s).x1 ∧
    (loopBody residual s).x1 < (loopBody residual s).x2 ∧
    (loopBody residual s).x2 ≤ b ∧
    a < (loopBody residual s).xmid ∧ (loopBody residual s).xmid < b := by
  have hmid1 : s.x1 < 0.5 * (s.x1 + s.x2) := by linarith
  have hmid2 : 0.5 * (s.x1 + s.x2) < s.x2 := by linarith
  simp only [loopBody]
  split
  · refine ⟨?_, ?_, ?_, ?_, ?_⟩
    · show a ≤ 0.5 * (s.x1 + s.x2)
      linarith
    · show 0.5 * (s.x1 + s.x2) < s.x2
      exact hmid2
    · show s.x2 ≤ b
      exact h3
    · show a < 0.5 * (s.x1 + s.x2)
      linarith
    · show 0.5 * (s.x1 + s.x2) < b
      linarith
  · refine ⟨?_, ?_, ?_, ?_, ?_⟩
    · show a ≤ s.x1
      exact h1
    · show s.x1 < 0.5 * (s.x1 + s.x2)
      exact hmid1
    · show 0.5 * (s.x1 + s.x2) ≤ b
      linarith
    · show a < 0.5 * (s.x1 + s.x2)
      linarith
    · show 0.5 * (s.x1 + s.x2) < b
      linarith

lemma bisectRun_inside (residual : ℚ → ℚ) (tol a b : ℚ) (fuel : ℕ)
    (s : LoopState) (h1 : a ≤ s.x1) (h2 : s.x1 < s.x2) (h3 : s.x2 ≤ b)
    (h4 : a < s.xmid) (h5 : s.xmid < b) :
    a < (bisectRun residual tol fuel s).xmid ∧
      (bisectRun residual tol fuel s).xmid < b := by
  induction fuel generalizing s with
  | zero => exact ⟨h4, h5⟩
  | succ fuel ih =>
      rw [bisectRun]
      by_cases hg : |s.fmid| > tol
      · rw [if_pos hg]
        obtain ⟨i1, i2, i3, i4, i5⟩ := loopBody_inside residual a b s h1 h2 h3
        exact ih (loopBody residual s) i1 i2 i3 i4 i5
      · rw [if_neg hg]
        exact ⟨h4, h5⟩

lemma bisect_iter_pos (residual : ℚ → ℚ) (tol : ℚ) (m : ℕ) (x1 x2 : ℚ)
    (htol : 0 < tol) :
    1 ≤ (bisect residual tol (m + 1) x1 x2).iter := by
  have hguard : |(bisectInit residual tol x1 x2).fmid| > tol := by
    show |10 * tol| > tol
    rw [abs_of_pos (by linarith)]
    linarith
  rw [bisect, bisectRun, if_pos hguard]
  have hge := bisectRun_iter_ge residual tol m
    (loopBody residual (bisectInit residual tol x1 x2))
  rw [loopBody_iter] at hge
  have h0 : (bisectInit residual tol x1 x2).iter = 0 := rfl
  omega

/-- Claim C10: Because the residual sentinel is initialised to `10*tol`
before the first test, the bisection loop executes at least one iteration
whenever `maxIter ≥ 1` and `tol > 0`, regardless of the endpoint residuals
(even when a supplied endpoint already satisfies `|residual| ≤ tol`);
consequently the reported solution is a computed midpoint carrying a
freshly evaluated residual (`fmid = residual(xmid)`), and for a
non-degenerate bracket `x1 < x2` it lies strictly inside `(x1, x2)`, so it
is never one of the caller-supplied endpoints. -/
theorem bisect_sentinel_first_iteration (residual : ℚ → ℚ) (tol : ℚ)
    (maxIter : ℕ) (x1 x2 : ℚ) (htol : 0 < tol) (hm : 1 ≤ maxIter) :
    1 ≤ (bisect residual tol maxIter x1 x2).iter ∧
    (bisect residual tol maxIter x1 x2).fmid =
      residual (bisect residual tol maxIter x1 x2).xmid ∧
    (x1 < x2 → x1 < (bisect residual tol maxIter x1 x2).xmid ∧
      (bisect residual tol maxIter x1 x2).xmid < x2) := by
  obtain ⟨m, rfl⟩ : ∃ m, maxIter = m + 1 := ⟨maxIter - 1, by omega⟩
  have hguard : |(bisectInit residual tol x1 x2).fmid| > tol := by
    show |10 * tol| > tol
    rw [abs_of_pos (by linarith)]
    linarith
  have hF : bisect residual tol (m + 1) x1 x2 =
      bisectRun residual tol m (loopBody residual (bisectInit residual tol x1 x2)) := by
    rw [bisect, bisectRun, if_pos hguard]
  refine ⟨bisect_iter_pos residual tol m x1 x2 htol, ?_, ?_⟩
  · rw [hF]
    exact bisectRun_fresh residual tol m _ (loopBody_fresh residual _)
  · intro hlt
    have hx1 : (bisectInit residual tol x1 x2).x1 = x1 := rfl
    have hx2 : (bisectInit residual tol x1 x2).x2 = x2 := rfl
    obtain ⟨i1, i2, i3, i4, i5⟩ := loopBody_inside residual x1 x2
      (bisectInit residual tol x1 x2) (le_of_eq hx1.symm)
      (by rw [hx1, hx2]; exact hlt) (le_of_eq hx2)
    rw [hF]
    exact bisectRun_inside residual tol x1 x2 m _ i1 i2 i3 i4 i5

/-- Instance of `bisect_sentinel_first_iteration` with `residual x = x`,
`tol = 1`, `maxIter = 1`, bracket `(0, 4)`: the low endpoint already
satisfies `|residual(0)| = 0 ≤ tol`, yet one iteration runs and the answer
is the interior midpoint with its fresh residual. -/
theorem bisect_sentinel_first_iteration_witness :
    |(fun x => x) (0 : ℚ)| ≤ 1 ∧
    1 ≤ (bisect (fun x => x) 1 1 0 4).iter ∧
    (bisect (fun x => x) 1 1 0 4).fmid =
      (fun x => x) (bisect (fun x => x) 1 1 0 4).xmid ∧
    (0 < (bisect (fun x => x) 1 1 0 4).xmid ∧
      (bisect (fun x => x) 1 1 0 4).xmid < 4) := by
  have h := bisect_sentinel_first_iteration (fun x => x) 1 1 0 4
    (by norm_num) (by norm_num)
  exact ⟨by norm_num, h.1, h.2.1, h.2.2 (by norm_num)⟩

/-- Claim C3, counterexample: With `residual x = x`, the bracket `(1, 3)` has
both residuals strictly positive (`1 > 0` and `3 > 0`), yet the code does
not fail with an `InvalidBracket` error: no bracket validation exists, the
`while` loop runs, and with `tol = 1`, `maxIter = 1` the final state records
one executed iteration, i.e. one midpoint residual evaluation beyond the two
bracket checks instead of the claimed zero. -/
theorem bisect_invalid_bracket_counterexample :
    (0 : ℚ) < (fun x => x) (1 : ℚ) ∧ (0 : ℚ) < (fun x => x) (3 : ℚ) ∧
    (bisect (fun x => x) 1 1 1 3).iter = 1 := by
  refine ⟨by norm_num, by norm_num, ?_⟩
  norm_num [bisect, bisectRun, bisectInit, loopBody]

/-- Claim C3, amended: The bisection shooter performs no bracket validation:
for a pair `(x1, x2)` whose residuals are both strictly positive, it does
not fail — with `tol > 0` and `maxIter ≥ 1` the loop executes at least one
iteration (hence at least one residual evaluation beyond the two bracket
checks) and returns a normal state, terminating only through the tolerance
test or the iteration budget. -/
theorem bisect_no_bracket_validation (residual : ℚ → ℚ) (tol : ℚ)
    (maxIter : ℕ) (x1 x2 : ℚ) (h1 : 0 < residual x1) (h2 : 0 < residual x2)
    (htol : 0 < tol) (hm : 1 ≤ maxIter) :
    1 ≤ (bisect residual tol maxIter x1 x2).iter ∧
    (|(bisect residual tol maxIter x1 x2).fmid| ≤ tol ∨
      (bisect residual tol maxIter x1 x2).iter = maxIter) := by
  obtain ⟨m, rfl⟩ : ∃ m, maxIter = m + 1 := ⟨maxIter - 1, by omega⟩
  refine ⟨bisect_iter_pos residual tol m x1 x2 htol, ?_⟩
  have hs := bisectRun_stop residual tol (m + 1) (bisectInit residual tol x1 x2)
  have h0 : (bisectInit residual tol x1 x2).iter = 0 := rfl
  rw [h0] at hs
  rcases hs with hc | hc
  · exact Or.inl hc
  · right
    rw [bisect, hc]
    omega

/-- Instance of `bisect_no_bracket_validation` with `residual x = x`,
`tol = 1`, `maxIter = 2`, same-sign bracket `(1, 3)`. -/
theorem bisect_no_bracket_validation_witness :
    1 ≤ (bisect (fun x => x) 1 2 1 3).iter ∧
    (|(bisect (fun x => x) 1 2 1 3).fmid| ≤ 1 ∨
      (bisect (fun x => x) 1 2 1 3).iter = 2) :=
  bisect_no_bracket_validation (fun x => x) 1 2 1 3 (by norm_num) (by norm_num)
    (by norm_num) (by norm_num)
